import Mathlib

/-!
# Allowlist matching of container images (`pkg/kritis/util/allowlist.go`)

A shallow embedding of the allowlist utilities of kritis and proofs of the
properties stated for them.

* A Go `string` is a finite sequence of bytes: `GoString := List UInt8`.
  `len`, indexing, slicing, `==`, `strings.HasPrefix` and `strings.LastIndex`
  all work on bytes, and so do the definitions below.
* A Go function returning `(bool, error)` is a function into
  `Bool × Option GoError`; `none` is the `nil` error.
* The reference parser `name.ParseReference(_, name.WeakValidation)` belongs to
  a library outside this package, and `constants.GlobalImageAllowlist` to
  another package: both are parameters of the functions that use them.
* `glog.Errorf` is modelled by an explicit log that the filter loop threads
  through its iterations.
-/

set_option autoImplicit false

namespace Allowlist

/-! ## Go strings and errors -/

/-- A Go string: an immutable sequence of bytes. -/
abbrev GoString := List UInt8

/-- The bytes (UTF-8) of a string literal of the Go source. -/
def str (s : String) : GoString := s.data.flatMap String.utf8EncodeChar

/-- The byte `'/'`. -/
def slash : UInt8 := 47

/-- The byte `'*'`. -/
def star : UInt8 := 42

/-- A Go `error` value, identified by its message. -/
structure GoError where
  msg : String
  deriving DecidableEq, Repr

/-- Go `errors.New`. -/
def errorsNew (text : String) : GoError := ⟨text⟩

/-- Go `strings.HasPrefix(s, pre)`:
`len(s) >= len(pre) && s[0:len(pre)] == pre`. -/
def HasPrefix (s pre : GoString) : Bool :=
  decide (s.length ≥ pre.length) && decide (s.take pre.length = pre)

/-- The loop of Go `strings.LastIndexByte`: `lastIndexByteFrom s c n` scans the
indices `n-1, n-2, …, 0` and returns the first one holding `c`, or `-1`. -/
def lastIndexByteFrom (s : GoString) (c : UInt8) : Nat → Int
  | 0 => -1
  | i + 1 => if s[i]? = some c then (i : Int) else lastIndexByteFrom s c i

/-- Go `strings.LastIndex(s, sep)` for a separator `sep` of one byte `c` (the
only way this package calls it): the index of the last `c` in `s`, or `-1`. -/
def LastIndex (s : GoString) (c : UInt8) : Int :=
  lastIndexByteFrom s c s.length

/-! ## Name-pattern matching -/

/-- Source `imageNamePatternMatch` (allowlist.go, lines 63-80). -/
def imageNamePatternMatch (image pattern : GoString) : Bool × Option GoError :=
  if pattern.length = 0 then
    (false, some (errorsNew "empty pattern"))
  else if pattern[pattern.length - 1]? = some star then
    let pattern := pattern.take (pattern.length - 1)
    if HasPrefix image pattern then
      if LastIndex image slash < (pattern.length : Int) then
        (true, none)
      else
        (false, none)
    else
      (false, none)
  else
    if image = pattern then
      (true, none)
    else
      (false, none)

/-- Source `imageInAllowlistByPattern` (allowlist.go, lines 95-106). -/
def imageInAllowlistByPattern (image : GoString) :
    List GoString → Bool × Option GoError
  | [] => (false, none)
  | w :: rest =>
    match (imageNamePatternMatch image w).2 with
    | some err => (false, some err)
    | none =>
      if (imageNamePatternMatch image w).1 then
        (true, none)
      else
        imageInAllowlistByPattern image rest

/-- Source `imageInGapAllowlist` (allowlist.go, lines 116-118). -/
def imageInGapAllowlist (image : GoString) (allowlist : List GoString) :
    Bool × Option GoError :=
  imageInAllowlistByPattern image allowlist

/-! ## Reference matching -/

/-- Modelled from the spec: the registry + repository identity of a parsed
image reference (`name.Repository` of the parsing library, which is not part
of this package). Two contexts are equal iff both components are equal. -/
structure Repository where
  registry : GoString
  repository : GoString
  deriving DecidableEq, Repr

/-- Modelled from the spec: a parsed image reference
`{registry, repository, tag_or_digest}` (`name.Reference` of the parsing
library, which is not part of this package). -/
structure Reference where
  context : Repository
  identifier : GoString
  deriving DecidableEq, Repr

/-- The method `Context()` of a reference. -/
def Reference.Context (r : Reference) : Repository := r.context

/-- The type of `name.ParseReference(_, name.WeakValidation)`: a reference or
an error. -/
abbrev Parser := GoString → Except GoError Reference

instance : DecidableEq (Except GoError Reference)
  | .ok a, .ok b =>
    if h : a = b then isTrue (by rw [h]) else isFalse (fun h2 => h (Except.ok.inj h2))
  | .error a, .error b =>
    if h : a = b then isTrue (by rw [h]) else isFalse (fun h2 => h (Except.error.inj h2))
  | .ok _, .error _ => isFalse (fun h => Except.noConfusion h)
  | .error _, .ok _ => isFalse (fun h => Except.noConfusion h)

/-- Source `imageRefMatch` (allowlist.go, lines 45-59), over the parser. -/
def imageRefMatch (ParseReference : Parser) (image pattern : GoString) :
    Bool × Option GoError :=
  match ParseReference pattern with
  | .error err => (false, some err)
  | .ok allowRef =>
    match ParseReference image with
    | .error err => (false, some err)
    | .ok imageRef =>
      if allowRef.Context = imageRef.Context then
        (true, none)
      else
        (false, none)

/-- Source `imageInAllowlistByReference` (allowlist.go, lines 82-93). -/
def imageInAllowlistByReference (ParseReference : Parser) (image : GoString) :
    List GoString → Bool × Option GoError
  | [] => (false, none)
  | w :: rest =>
    match (imageRefMatch ParseReference image w).2 with
    | some err => (false, some err)
    | none =>
      if (imageRefMatch ParseReference image w).1 then
        (true, none)
      else
        imageInAllowlistByReference ParseReference image rest

/-- Source `imageInGlobalAllowlist` (allowlist.go, lines 110-112);
`GlobalImageAllowlist` is the constant `constants.GlobalImageAllowlist`. -/
def imageInGlobalAllowlist (ParseReference : Parser)
    (GlobalImageAllowlist : List GoString) (image : GoString) :
    Bool × Option GoError :=
  imageInAllowlistByReference ParseReference image GlobalImageAllowlist

/-- The state of the loop of `RemoveGloballyAllowedImages`: the slice built so
far and the lines written with `glog.Errorf` (image and error of each). -/
structure FilterState where
  notAllowlisted : List GoString
  log : List (GoString × GoError)
  deriving DecidableEq, Repr

/-- One iteration of the loop of `RemoveGloballyAllowedImages`
(allowlist.go, lines 33-39). -/
def removeStep (ParseReference : Parser) (GlobalImageAllowlist : List GoString)
    (st : FilterState) (image : GoString) : FilterState :=
  let r := imageInGlobalAllowlist ParseReference GlobalImageAllowlist image
  let log := match r.2 with
    | some err => st.log ++ [(image, err)]
    | none => st.log
  if !r.1 then
    { notAllowlisted := st.notAllowlisted ++ [image], log := log }
  else
    { notAllowlisted := st.notAllowlisted, log := log }

/-- The loop of `RemoveGloballyAllowedImages` with its log. -/
def removeLoop (ParseReference : Parser) (GlobalImageAllowlist : List GoString)
    (images : List GoString) : FilterState :=
  images.foldl (removeStep ParseReference GlobalImageAllowlist)
    { notAllowlisted := [], log := [] }

/-- Source `RemoveGloballyAllowedImages` (allowlist.go, lines 30-42). -/
def RemoveGloballyAllowedImages (ParseReference : Parser)
    (GlobalImageAllowlist : List GoString) (images : List GoString) :
    List GoString :=
  (removeLoop ParseReference GlobalImageAllowlist images).notAllowlisted

/-! ## A parser to run the reference matcher on

`name.ParseReference` is a parameter of everything above, and every theorem
below about the reference matcher holds for every parser. The parser of this
section only serves to evaluate the definitions on concrete images. -/

/-- The byte `':'`. -/
def colon : UInt8 := 58

/-- The byte `'@'`. -/
def atSign : UInt8 := 64

/-- The byte `'.'`. -/
def dot : UInt8 := 46

/-- Modelled from the spec: the bytes a repository path may hold (lower-case
letters, digits, `_`, `-`, `.`, `/`); any other byte is an invalid character.
The parsing library itself is outside this package. -/
def isRepositoryByte (b : UInt8) : Bool :=
  (decide (97 ≤ b) && decide (b ≤ 122)) || (decide (48 ≤ b) && decide (b ≤ 57)) ||
    b == 95 || b == 45 || b == dot || b == slash

/-- Modelled from the spec: the split of `[registry/]repository[:tag|@digest]`
into the part before the tag or digest and the tag or digest itself, with the
default tag `latest` when there is none. The parsing library itself is outside
this package. -/
def splitIdentifier (s : GoString) : GoString × GoString :=
  if atSign ∈ s then
    (s.takeWhile (fun b => b != atSign), (s.dropWhile (fun b => b != atSign)).drop 1)
  else if LastIndex s slash < LastIndex s colon then
    (s.take (LastIndex s colon).toNat, s.drop ((LastIndex s colon).toNat + 1))
  else
    (s, str "latest")

/-- Modelled from the spec: the split of `[registry/]repository` into registry
and repository, with the default registry host when the first segment is not
a host. The parsing library itself is outside this package. -/
def splitRegistry (base : GoString) : GoString × GoString :=
  let head := base.takeWhile (fun b => b != slash)
  if slash ∈ base ∧ (dot ∈ head ∨ colon ∈ head ∨ head = str "localhost") then
    (head, (base.dropWhile (fun b => b != slash)).drop 1)
  else
    (str "index.docker.io", base)

/-- Modelled from the spec: `name.ParseReference(s, name.WeakValidation)`, the
lenient parser of `[registry/]repository[:tag|@digest]` that fills in the
default registry and tag and fails on the empty string and on invalid
characters. The parsing library itself is outside this package. -/
def ParseReferenceModel : Parser := fun s =>
  let base := (splitIdentifier s).1
  let repo := (splitRegistry base).2
  if repo.length = 0 ∨ repo.all isRepositoryByte = false then
    .error (errorsNew "could not parse reference")
  else
    .ok { context := { registry := (splitRegistry base).1, repository := repo },
          identifier := (splitIdentifier s).2 }

/-! ## Specification-side notions -/

/-- The words of the specification: `k` is the byte index of the last `c` in
`s`, taken as `-1` when `s` has no `c`. -/
def IsLastIndexOf (s : GoString) (c : UInt8) (k : Int) : Prop :=
  (k = -1 ∧ c ∉ s) ∨
  (0 ≤ k ∧ s[k.toNat]? = some c ∧ ∀ j : Nat, k < (j : Int) → s[j]? ≠ some c)

/-! ## Strings -/

theorem str_star : str "*" = [star] := by decide

theorem str_slash : str "/" = [slash] := by decide

theorem str_empty : str "" = [] := by decide

theorem hasPrefix_iff (s pre : GoString) : HasPrefix s pre = true ↔ pre <+: s := by
  unfold HasPrefix
  rw [Bool.and_eq_true, decide_eq_true_iff, decide_eq_true_iff, List.prefix_iff_eq_take]
  constructor
  · rintro ⟨_, h⟩
    exact h.symm
  · intro h
    refine ⟨?_, h.symm⟩
    have hl := congrArg List.length h
    rw [List.length_take] at hl
    omega

theorem lastIndexByteFrom_lt_iff (s : GoString) (c : UInt8) (n : Nat) :
    ∀ m : Nat, lastIndexByteFrom s c m < (n : Int) ↔
      ∀ j : Nat, n ≤ j → j < m → s[j]? ≠ some c := by
  intro m
  induction m with
  | zero =>
    simp only [lastIndexByteFrom]
    constructor
    · intro _ j _ hj
      omega
    · intro _
      omega
  | succ i ih =>
    simp only [lastIndexByteFrom]
    by_cases hc : s[i]? = some c
    · rw [if_pos hc]
      constructor
      · intro hlt j hnj hji
        omega
      · intro h
        by_contra hge
        exact h i (by omega) (by omega) hc
    · rw [if_neg hc, ih]
      constructor
      · intro h j hnj hji
        by_cases hji2 : j = i
        · subst hji2
          exact hc
        · exact h j hnj (by omega)
      · intro h j hnj hji
        exact h j hnj (by omega)

/-- `LastIndex s c < n` says that no byte of `s` at an index `≥ n` is `c`. -/
theorem lastIndex_lt_iff (s : GoString) (c : UInt8) (n : Nat) :
    LastIndex s c < (n : Int) ↔ ∀ j : Nat, n ≤ j → s[j]? ≠ some c := by
  unfold LastIndex
  rw [lastIndexByteFrom_lt_iff]
  constructor
  · intro h j hnj
    by_cases hj : j < s.length
    · exact h j hnj hj
    · rw [List.getElem?_eq_none (by omega)]
      simp
  · intro h j hnj _
    exact h j hnj

theorem lastIndexByteFrom_spec (s : GoString) (c : UInt8) :
    ∀ m : Nat,
      (lastIndexByteFrom s c m = -1 ∧ ∀ j : Nat, j < m → s[j]? ≠ some c) ∨
      (0 ≤ lastIndexByteFrom s c m ∧
        s[(lastIndexByteFrom s c m).toNat]? = some c ∧
        ∀ j : Nat, lastIndexByteFrom s c m < (j : Int) → j < m → s[j]? ≠ some c) := by
  intro m
  induction m with
  | zero =>
    left
    refine ⟨rfl, ?_⟩
    intro j hj
    omega
  | succ i ih =>
    simp only [lastIndexByteFrom]
    by_cases hc : s[i]? = some c
    · rw [if_pos hc]
      right
      refine ⟨by omega, by simpa using hc, ?_⟩
      intro j h1 h2
      omega
    · rw [if_neg hc]
      rcases ih with ⟨h1, h2⟩ | ⟨h1, h2, h3⟩
      · left
        refine ⟨h1, ?_⟩
        intro j hj
        by_cases hji : j = i
        · subst hji
          exact hc
        · exact h2 j (by omega)
      · right
        refine ⟨h1, h2, ?_⟩
        intro j hj1 hj2
        by_cases hji : j = i
        · subst hji
          exact hc
        · exact h3 j hj1 (by omega)

/-- The value computed by `LastIndex` is the index of the last `c`, or `-1`. -/
theorem lastIndex_spec (s : GoString) (c : UInt8) :
    IsLastIndexOf s c (LastIndex s c) := by
  unfold LastIndex IsLastIndexOf
  rcases lastIndexByteFrom_spec s c s.length with ⟨h1, h2⟩ | ⟨h1, h2, h3⟩
  · left
    refine ⟨h1, ?_⟩
    intro hmem
    obtain ⟨j, hj, hjc⟩ := List.getElem_of_mem hmem
    exact h2 j hj (by rw [List.getElem?_eq_getElem hj, hjc])
  · right
    refine ⟨h1, h2, ?_⟩
    intro j hj
    by_cases hjl : j < s.length
    · exact h3 j hj hjl
    · rw [List.getElem?_eq_none (by omega)]
      simp

/-- The index of the last `c` is unique. -/
theorem isLastIndexOf_unique (s : GoString) (c : UInt8) (k k' : Int)
    (h : IsLastIndexOf s c k) (h' : IsLastIndexOf s c k') : k = k' := by
  unfold IsLastIndexOf at h h'
  rcases h with ⟨h1, h2⟩ | ⟨h1, h2, h3⟩ <;> rcases h' with ⟨g1, g2⟩ | ⟨g1, g2, g3⟩
  · omega
  · exact absurd (List.getElem?_mem g2) h2
  · exact absurd (List.getElem?_mem h2) g2
  · by_contra hne
    rcases lt_or_gt_of_ne hne with hlt | hgt
    · exact h3 k'.toNat (by omega) g2
    · exact g3 k.toNat (by omega) h2

/-- No `c` lies at or after the end of the prefix `p` of `p ++ rest` exactly
when `rest` has no `c`. -/
theorem lastIndex_append_lt_iff (p rest : GoString) (c : UInt8) :
    LastIndex (p ++ rest) c < (p.length : Int) ↔ c ∉ rest := by
  rw [lastIndex_lt_iff]
  constructor
  · intro h hmem
    obtain ⟨n, hn⟩ := List.mem_iff_getElem?.mp hmem
    apply h (p.length + n) (by omega)
    rw [List.getElem?_append_right (by omega)]
    simpa using hn
  · intro h j hj hc
    rw [List.getElem?_append_right hj] at hc
    exact h (List.getElem?_mem hc)

/-! ## `imageNamePatternMatch`, branch by branch -/

theorem imageNamePatternMatch_nil (image : GoString) :
    imageNamePatternMatch image [] = (false, some (errorsNew "empty pattern")) := by
  simp [imageNamePatternMatch]

/-- The wildcard branch: the pattern is `p` followed by `*`. -/
theorem imageNamePatternMatch_concat_star (image p : GoString) :
    imageNamePatternMatch image (p ++ [star]) =
      (HasPrefix image p && decide (LastIndex image slash < (p.length : Int)), none) := by
  unfold imageNamePatternMatch
  have h1 : (p ++ [star]).length - 1 = p.length := by simp
  have h2 : ¬ ((p ++ [star]).length = 0) := by simp
  rw [if_neg h2, h1, List.getElem?_concat_length, if_pos rfl]
  simp only [List.take_left' rfl]
  by_cases hp : HasPrefix image p = true
  · by_cases hl : LastIndex image slash < (p.length : Int)
    · simp [hp, hl]
    · simp [hp, hl]
  · simp [hp]

/-- The literal branch: the pattern is not empty and does not end in `*`. -/
theorem imageNamePatternMatch_of_not_star (image pattern : GoString)
    (hne : pattern ≠ []) (hlast : pattern.getLast? ≠ some star) :
    imageNamePatternMatch image pattern = (decide (image = pattern), none) := by
  unfold imageNamePatternMatch
  have h2 : ¬ (pattern.length = 0) := by
    intro h
    exact hne (List.length_eq_zero.mp h)
  rw [List.getLast?_eq_getElem?] at hlast
  rw [if_neg h2, if_neg hlast]
  by_cases h : image = pattern
  · simp [h]
  · simp [h]

/-- A pattern is empty, ends in `*`, or is a literal. -/
theorem pattern_cases (pattern : GoString) :
    pattern = [] ∨ (∃ p, pattern = p ++ [star]) ∨
      (pattern ≠ [] ∧ pattern.getLast? ≠ some star) := by
  by_cases hne : pattern = []
  · exact Or.inl hne
  · by_cases hlast : pattern.getLast? = some star
    · right
      left
      exact List.getLast?_eq_some_iff.mp hlast
    · exact Or.inr (Or.inr ⟨hne, hlast⟩)

/-- The error of `imageNamePatternMatch` is `nil` unless the pattern is empty. -/
theorem imageNamePatternMatch_snd (image pattern : GoString) :
    (imageNamePatternMatch image pattern).2 =
      if pattern = [] then some (errorsNew "empty pattern") else none := by
  rcases pattern_cases pattern with h | ⟨p, h⟩ | ⟨h1, h2⟩
  · subst h
    simp [imageNamePatternMatch_nil]
  · subst h
    simp [imageNamePatternMatch_concat_star]
  · simp [imageNamePatternMatch_of_not_star image pattern h1 h2, h1]

/-! ## `imageRefMatch`, case by case -/

theorem imageRefMatch_of_pattern_error (P : Parser) (image pattern : GoString)
    (e : GoError) (hp : P pattern = .error e) :
    imageRefMatch P image pattern = (false, some e) := by
  simp [imageRefMatch, hp]

theorem imageRefMatch_of_image_error (P : Parser) (image pattern : GoString)
    (rp : Reference) (e : GoError) (hp : P pattern = .ok rp) (hi : P image = .error e) :
    imageRefMatch P image pattern = (false, some e) := by
  simp [imageRefMatch, hp, hi]

theorem imageRefMatch_of_ok (P : Parser) (image pattern : GoString)
    (rp ri : Reference) (hp : P pattern = .ok rp) (hi : P image = .ok ri) :
    imageRefMatch P image pattern = (decide (rp.Context = ri.Context), none) := by
  by_cases h : rp.Context = ri.Context
  · simp [imageRefMatch, hp, hi, h]
  · simp [imageRefMatch, hp, hi, h]

/-- A parse either fails with an error or succeeds with a reference. -/
theorem parse_cases (P : Parser) (s : GoString) :
    (∃ e, P s = .error e) ∨ (∃ r, P s = .ok r) := by
  cases h : P s with
  | error e => exact Or.inl ⟨e, rfl⟩
  | ok r => exact Or.inr ⟨r, rfl⟩

/-- An image that does not parse matches no pattern. -/
theorem imageRefMatch_fst_of_image_error (P : Parser) (image pattern : GoString)
    (e : GoError) (hi : P image = .error e) :
    (imageRefMatch P image pattern).1 = false := by
  rcases parse_cases P pattern with ⟨e2, hp⟩ | ⟨rp, hp⟩
  · rw [imageRefMatch_of_pattern_error P image pattern e2 hp]
  · rw [imageRefMatch_of_image_error P image pattern rp e hp hi]

/-- Whenever `imageRefMatch` returns an error, its flag is false. -/
theorem imageRefMatch_fst_of_error (P : Parser) (image pattern : GoString)
    (h : (imageRefMatch P image pattern).2 ≠ none) :
    (imageRefMatch P image pattern).1 = false := by
  rcases parse_cases P pattern with ⟨e2, hp⟩ | ⟨rp, hp⟩
  · rw [imageRefMatch_of_pattern_error P image pattern e2 hp]
  · rcases parse_cases P image with ⟨e, hi⟩ | ⟨ri, hi⟩
    · rw [imageRefMatch_of_image_error P image pattern rp e hp hi]
    · rw [imageRefMatch_of_ok P image pattern rp ri hp hi] at h
      exact absurd rfl h

/-- The error of `imageRefMatch` is the error of one of the two parses. -/
theorem imageRefMatch_error_cause (P : Parser) (image pattern : GoString) (e : GoError)
    (h : (imageRefMatch P image pattern).2 = some e) :
    P pattern = .error e ∨ P image = .error e := by
  rcases parse_cases P pattern with ⟨e2, hp⟩ | ⟨rp, hp⟩
  · rw [imageRefMatch_of_pattern_error P image pattern e2 hp] at h
    left
    rw [hp]
    exact congrArg Except.error (Option.some.inj h)
  · rcases parse_cases P image with ⟨e1, hi⟩ | ⟨ri, hi⟩
    · rw [imageRefMatch_of_image_error P image pattern rp e1 hp hi] at h
      right
      rw [hi]
      exact congrArg Except.error (Option.some.inj h)
    · rw [imageRefMatch_of_ok P image pattern rp ri hp hi] at h
      exact absurd h (by simp)

/-! ## The allowlist loops -/

theorem imageInAllowlistByReference_cons_error (P : Parser) (image w : GoString)
    (rest : List GoString) (err : GoError) (h : (imageRefMatch P image w).2 = some err) :
    imageInAllowlistByReference P image (w :: rest) = (false, some err) := by
  rw [imageInAllowlistByReference, h]

theorem imageInAllowlistByReference_cons_true (P : Parser) (image w : GoString)
    (rest : List GoString) (h : imageRefMatch P image w = (true, none)) :
    imageInAllowlistByReference P image (w :: rest) = (true, none) := by
  rw [imageInAllowlistByReference, h]
  rfl

theorem imageInAllowlistByReference_cons_false (P : Parser) (image w : GoString)
    (rest : List GoString) (h : imageRefMatch P image w = (false, none)) :
    imageInAllowlistByReference P image (w :: rest) =
      imageInAllowlistByReference P image rest := by
  rw [imageInAllowlistByReference, h]
  simp

theorem imageInAllowlistByPattern_cons_error (image w : GoString)
    (rest : List GoString) (err : GoError) (h : (imageNamePatternMatch image w).2 = some err) :
    imageInAllowlistByPattern image (w :: rest) = (false, some err) := by
  rw [imageInAllowlistByPattern, h]

theorem imageInAllowlistByPattern_cons_true (image w : GoString)
    (rest : List GoString) (h : imageNamePatternMatch image w = (true, none)) :
    imageInAllowlistByPattern image (w :: rest) = (true, none) := by
  rw [imageInAllowlistByPattern, h]
  rfl

theorem imageInAllowlistByPattern_cons_false (image w : GoString)
    (rest : List GoString) (h : imageNamePatternMatch image w = (false, none)) :
    imageInAllowlistByPattern image (w :: rest) = imageInAllowlistByPattern image rest := by
  rw [imageInAllowlistByPattern, h]
  simp

/-- A result of a matcher is an error, a match or a non-match. -/
theorem result_cases (r : Bool × Option GoError) :
    (∃ err, r.2 = some err) ∨ r = (true, none) ∨ r = (false, none) := by
  rcases r with ⟨b, _ | err⟩
  · cases b
    · exact Or.inr (Or.inr rfl)
    · exact Or.inr (Or.inl rfl)
  · exact Or.inl ⟨err, rfl⟩

/-- Whenever the reference loop returns an error, its flag is false. -/
theorem imageInAllowlistByReference_fst_of_error (P : Parser) (image : GoString) :
    ∀ G : List GoString, (imageInAllowlistByReference P image G).2 ≠ none →
      (imageInAllowlistByReference P image G).1 = false := by
  intro G
  induction G with
  | nil =>
    intro _
    rfl
  | cons w rest ih =>
    rcases result_cases (imageRefMatch P image w) with ⟨err, hm⟩ | hm | hm
    · rw [imageInAllowlistByReference_cons_error P image w rest err hm]
      intro _
      rfl
    · rw [imageInAllowlistByReference_cons_true P image w rest hm]
      intro h
      exact absurd rfl h
    · rw [imageInAllowlistByReference_cons_false P image w rest hm]
      exact ih

/-- The error of the reference loop is the error of a parse: of the image or
of an entry of the allowlist. -/
theorem imageInAllowlistByReference_error_cause (P : Parser) (image : GoString)
    (e : GoError) :
    ∀ G : List GoString, (imageInAllowlistByReference P image G).2 = some e →
      P image = .error e ∨ ∃ w ∈ G, P w = .error e := by
  intro G
  induction G with
  | nil =>
    intro h
    exact absurd h (by simp [imageInAllowlistByReference])
  | cons w rest ih =>
    rcases result_cases (imageRefMatch P image w) with ⟨err, hm⟩ | hm | hm
    · rw [imageInAllowlistByReference_cons_error P image w rest err hm]
      intro h
      have he : err = e := Option.some.inj h
      subst he
      rcases imageRefMatch_error_cause P image w err hm with h1 | h1
      · exact Or.inr ⟨w, List.mem_cons_self w rest, h1⟩
      · exact Or.inl h1
    · rw [imageInAllowlistByReference_cons_true P image w rest hm]
      intro h
      exact absurd h (by simp)
    · rw [imageInAllowlistByReference_cons_false P image w rest hm]
      intro h
      rcases ih h with h1 | ⟨w2, hw2, h2⟩
      · exact Or.inl h1
      · exact Or.inr ⟨w2, List.mem_cons_of_mem w hw2, h2⟩

/-- When every entry of the allowlist parses, the flag of the reference loop
says whether some entry matches the image. -/
theorem imageInAllowlistByReference_fst_of_parsed (P : Parser) (image : GoString) :
    ∀ G : List GoString, (∀ w ∈ G, ∃ r, P w = .ok r) →
      ((imageInAllowlistByReference P image G).1 = true ↔
        ∃ w ∈ G, (imageRefMatch P image w).1 = true) := by
  intro G
  induction G with
  | nil =>
    intro _
    simp [imageInAllowlistByReference]
  | cons w rest ih =>
    intro hG
    have ih2 := ih (fun w2 hw2 => hG w2 (List.mem_cons_of_mem w hw2))
    obtain ⟨rw, hrw⟩ := hG w (List.mem_cons_self w rest)
    rcases result_cases (imageRefMatch P image w) with ⟨err, hm⟩ | hm | hm
    · rw [imageInAllowlistByReference_cons_error P image w rest err hm]
      rcases imageRefMatch_error_cause P image w err hm with h1 | h1
      · rw [hrw] at h1
        exact absurd h1 (by simp)
      · constructor
        · intro h
          exact absurd h (by simp)
        · rintro ⟨w2, _, h2⟩
          rw [imageRefMatch_fst_of_image_error P image w2 err h1] at h2
          exact absurd h2 (by simp)
    · rw [imageInAllowlistByReference_cons_true P image w rest hm]
      simp only [true_iff]
      refine ⟨w, List.mem_cons_self w rest, ?_⟩
      rw [hm]
    · rw [imageInAllowlistByReference_cons_false P image w rest hm, ih2]
      constructor
      · rintro ⟨w2, hw2, h2⟩
        exact ⟨w2, List.mem_cons_of_mem w hw2, h2⟩
      · rintro ⟨w2, hw2, h2⟩
        rcases List.mem_cons.mp hw2 with heq | hmem
        · subst heq
          rw [hm] at h2
          exact absurd h2 (by simp)
        · exact ⟨w2, hmem, h2⟩

/-- When no pattern of the allowlist is empty, the pattern loop returns no
error and its flag says whether some pattern matches the image. -/
theorem imageInAllowlistByPattern_of_no_empty (image : GoString) :
    ∀ L : List GoString, (∀ w ∈ L, w ≠ []) →
      (imageInAllowlistByPattern image L).2 = none ∧
      ((imageInAllowlistByPattern image L).1 = true ↔
        ∃ w ∈ L, (imageNamePatternMatch image w).1 = true) := by
  intro L
  induction L with
  | nil =>
    intro _
    simp [imageInAllowlistByPattern]
  | cons w rest ih =>
    intro hL
    have ih2 := ih (fun w2 hw2 => hL w2 (List.mem_cons_of_mem w hw2))
    have hw : w ≠ [] := hL w (List.mem_cons_self w rest)
    have hsnd := imageNamePatternMatch_snd image w
    rw [if_neg hw] at hsnd
    rcases result_cases (imageNamePatternMatch image w) with ⟨err, hm⟩ | hm | hm
    · rw [hm] at hsnd
      exact absurd hsnd (by simp)
    · rw [imageInAllowlistByPattern_cons_true image w rest hm]
      simp only [true_iff, true_and]
      refine ⟨w, List.mem_cons_self w rest, ?_⟩
      rw [hm]
    · rw [imageInAllowlistByPattern_cons_false image w rest hm]
      refine ⟨ih2.1, ?_⟩
      rw [ih2.2]
      constructor
      · rintro ⟨w2, hw2, h2⟩
        exact ⟨w2, List.mem_cons_of_mem w hw2, h2⟩
      · rintro ⟨w2, hw2, h2⟩
        rcases List.mem_cons.mp hw2 with heq | hmem
        · subst heq
          rw [hm] at h2
          exact absurd h2 (by simp)
        · exact ⟨w2, hmem, h2⟩

/-- An empty pattern reached by the pattern loop ends it with the error. -/
theorem imageInAllowlistByPattern_of_empty (image : GoString) (post : List GoString) :
    ∀ pre : List GoString, (∀ w ∈ pre, (imageNamePatternMatch image w).1 = false) →
      imageInAllowlistByPattern image (pre ++ [] :: post) =
        (false, some (errorsNew "empty pattern")) := by
  intro pre
  induction pre with
  | nil =>
    intro _
    rw [List.nil_append]
    apply imageInAllowlistByPattern_cons_error
    rw [imageNamePatternMatch_nil]
  | cons w rest ih =>
    intro hpre
    have ih2 := ih (fun w2 hw2 => hpre w2 (List.mem_cons_of_mem w hw2))
    have hw := hpre w (List.mem_cons_self w rest)
    have hsnd := imageNamePatternMatch_snd image w
    rw [List.cons_append]
    rcases result_cases (imageNamePatternMatch image w) with ⟨err, hm⟩ | hm | hm
    · rw [imageInAllowlistByPattern_cons_error image w _ err hm]
      rw [hm] at hsnd
      by_cases hnil : w = []
      · rw [if_pos hnil] at hsnd
        rw [hsnd]
      · rw [if_neg hnil] at hsnd
        exact absurd hsnd (by simp)
    · rw [hm] at hw
      exact absurd hw (by simp)
    · rw [imageInAllowlistByPattern_cons_false image w _ hm]
      exact ih2

/-! ## The filter loop -/

theorem removeStep_notAllowlisted (P : Parser) (G : List GoString) (st : FilterState)
    (image : GoString) :
    (removeStep P G st image).notAllowlisted =
      st.notAllowlisted ++ [image].filter (fun i => !(imageInGlobalAllowlist P G i).1) := by
  unfold removeStep
  cases h : (imageInGlobalAllowlist P G image).1 <;> simp [h]

theorem foldl_removeStep_notAllowlisted (P : Parser) (G : List GoString) :
    ∀ (images : List GoString) (st : FilterState),
      (images.foldl (removeStep P G) st).notAllowlisted =
        st.notAllowlisted ++ images.filter (fun i => !(imageInGlobalAllowlist P G i).1) := by
  intro images
  induction images with
  | nil =>
    intro st
    simp
  | cons image rest ih =>
    intro st
    rw [List.foldl_cons, ih, removeStep_notAllowlisted, List.append_assoc,
      ← List.filter_append]
    rfl

/-- The filter keeps, in order, the images whose allowlist check has a false
flag. -/
theorem removeGloballyAllowedImages_eq_filter (P : Parser) (G images : List GoString) :
    RemoveGloballyAllowedImages P G images =
      images.filter (fun i => !(imageInGlobalAllowlist P G i).1) := by
  unfold RemoveGloballyAllowedImages removeLoop
  rw [foldl_removeStep_notAllowlisted]
  rfl

/-! ## The claims on `imageNamePatternMatch` -/

/-- C1: for every image and every `p`, `imageNamePatternMatch image (p ++ "*")`
returns no error, and its flag is true exactly when `image` starts with `p` and
the byte index of the last `/` of `image` (`-1` when there is none) is strictly
less than `len(p)`; otherwise the flag is false. The index compared is the one
`strings.LastIndex` computes. So `gcr.io/proj/repo:v1` matches `gcr.io/proj/*`
and `gcr.io/other/repo` does not. -/
theorem imageNamePatternMatch_wildcard (image p : GoString) :
    (imageNamePatternMatch image (p ++ str "*")).2 = none ∧
    ((imageNamePatternMatch image (p ++ str "*")).1 = true ↔
      (p <+: image ∧ ∃ k : Int, IsLastIndexOf image slash k ∧ k < (p.length : Int))) ∧
    ((imageNamePatternMatch image (p ++ str "*")).1 = false ↔
      ¬ (p <+: image ∧ ∃ k : Int, IsLastIndexOf image slash k ∧ k < (p.length : Int))) ∧
    IsLastIndexOf image slash (LastIndex image slash) ∧
    imageNamePatternMatch (str "gcr.io/proj/repo:v1") (str "gcr.io/proj/*") = (true, none) ∧
    imageNamePatternMatch (str "gcr.io/other/repo") (str "gcr.io/proj/*") = (false, none) := by
  have hk : (∃ k : Int, IsLastIndexOf image slash k ∧ k < (p.length : Int)) ↔
      LastIndex image slash < (p.length : Int) := by
    constructor
    · rintro ⟨k, hk1, hk2⟩
      rw [← isLastIndexOf_unique image slash k _ hk1 (lastIndex_spec image slash)]
      exact hk2
    · intro h
      exact ⟨_, lastIndex_spec image slash, h⟩
  have hiff : (imageNamePatternMatch image (p ++ str "*")).1 = true ↔
      (p <+: image ∧ ∃ k : Int, IsLastIndexOf image slash k ∧ k < (p.length : Int)) := by
    rw [str_star, imageNamePatternMatch_concat_star, hk]
    simp [hasPrefix_iff]
  refine ⟨?_, hiff, ?_, lastIndex_spec image slash, by decide, by decide⟩
  · rw [str_star, imageNamePatternMatch_concat_star]
  · rw [← hiff]
    simp

/-- C2: for every image and every `p`, `imageNamePatternMatch image (p ++ "*")`
returns true if and only if `image = p ++ rest` for some `rest` without `/`:
the wildcard never spans a path separator after the literal prefix. So `a/b/c`
matches `a/b/*`, while `a/b/c/d` does not, nor does `gcr.io/proj/sub/repo:v1`
match `gcr.io/proj/*`. -/
theorem imageNamePatternMatch_wildcard_iff_rest (image p : GoString) :
    ((imageNamePatternMatch image (p ++ str "*")).1 = true ↔
      ∃ rest : GoString, image = p ++ rest ∧ slash ∉ rest) ∧
    imageNamePatternMatch (str "a/b/c") (str "a/b/*") = (true, none) ∧
    imageNamePatternMatch (str "a/b/c/d") (str "a/b/*") = (false, none) ∧
    imageNamePatternMatch (str "gcr.io/proj/sub/repo:v1") (str "gcr.io/proj/*")
      = (false, none) := by
  refine ⟨?_, by decide, by decide, by decide⟩
  rw [str_star, imageNamePatternMatch_concat_star]
  simp only [Bool.and_eq_true, decide_eq_true_iff, hasPrefix_iff]
  constructor
  · rintro ⟨⟨rest, hrest⟩, hl⟩
    refine ⟨rest, hrest.symm, ?_⟩
    rw [← hrest] at hl
    exact (lastIndex_append_lt_iff p rest slash).mp hl
  · rintro ⟨rest, hrest, hno⟩
    subst hrest
    exact ⟨List.prefix_append p rest, (lastIndex_append_lt_iff p rest slash).mpr hno⟩

/-- C3: for every image and every non-empty pattern whose last byte is not `*`,
`imageNamePatternMatch` returns no error and returns true if and only if the
image equals the pattern byte for byte. -/
theorem imageNamePatternMatch_literal (image pattern : GoString)
    (hne : pattern ≠ []) (hlast : pattern.getLast? ≠ some star) :
    (imageNamePatternMatch image pattern).2 = none ∧
    ((imageNamePatternMatch image pattern).1 = true ↔ image = pattern) := by
  rw [imageNamePatternMatch_of_not_star image pattern hne hlast]
  simp

/-- Witness of C3: the literal pattern `gcr.io/proj/repo:v1` and the same image. -/
theorem imageNamePatternMatch_literal_witness :
    str "gcr.io/proj/repo:v1" ≠ [] ∧
    (str "gcr.io/proj/repo:v1").getLast? ≠ some star ∧
    (imageNamePatternMatch (str "gcr.io/proj/repo:v1") (str "gcr.io/proj/repo:v1")).2 = none ∧
    ((imageNamePatternMatch (str "gcr.io/proj/repo:v1") (str "gcr.io/proj/repo:v1")).1 = true ↔
      str "gcr.io/proj/repo:v1" = str "gcr.io/proj/repo:v1") :=
  ⟨by decide, by decide,
    imageNamePatternMatch_literal (str "gcr.io/proj/repo:v1") (str "gcr.io/proj/repo:v1")
      (by decide) (by decide)⟩

/-- C4: `imageNamePatternMatch` returns an error if and only if the pattern is
the empty string, whatever the image, and whenever it returns an error the
flag is false. -/
theorem imageNamePatternMatch_error_iff (image pattern : GoString) :
    ((imageNamePatternMatch image pattern).2 ≠ none ↔ pattern = str "") ∧
    ((imageNamePatternMatch image pattern).2 ≠ none →
      (imageNamePatternMatch image pattern).1 = false) := by
  rw [str_empty, imageNamePatternMatch_snd]
  by_cases h : pattern = []
  · subst h
    simp [imageNamePatternMatch_nil]
  · simp [h]

/-! ## The claims on the global-allowlist filter -/

/-- C5: when every entry of the global allowlist parses,
`RemoveGloballyAllowedImages` returns exactly the images, in their original
order and with their original multiplicity, that match no allowlist entry via
`imageRefMatch`; these are the images that fail to parse or whose parsed
context differs from the parsed context of every allowlist entry. -/
theorem removeGloballyAllowedImages_of_parsed (P : Parser) (G images : List GoString)
    (hG : ∀ w ∈ G, ∃ r, P w = .ok r) :
    RemoveGloballyAllowedImages P G images =
      images.filter (fun image => decide (∀ w ∈ G, (imageRefMatch P image w).1 = false)) ∧
    ∀ image : GoString,
      (∀ w ∈ G, (imageRefMatch P image w).1 = false) ↔
        ((∃ e, P image = .error e) ∨
          ∃ ri, P image = .ok ri ∧ ∀ w ∈ G, ∀ rw, P w = .ok rw → rw.Context ≠ ri.Context) := by
  constructor
  · rw [removeGloballyAllowedImages_eq_filter]
    apply List.filter_congr
    intro image _
    have h := imageInAllowlistByReference_fst_of_parsed P image G hG
    unfold imageInGlobalAllowlist
    cases hb : (imageInAllowlistByReference P image G).1
    · rw [hb] at h
      symm
      simp only [Bool.not_false, decide_eq_true_eq]
      intro w hw
      cases hf : (imageRefMatch P image w).1
      · rfl
      · exact absurd (h.mpr ⟨w, hw, hf⟩) (by simp)
    · rw [hb] at h
      obtain ⟨w, hw, hf⟩ := h.mp rfl
      symm
      simp only [Bool.not_true, decide_eq_false_iff_not]
      intro hall
      rw [hall w hw] at hf
      exact absurd hf (by simp)
  · intro image
    rcases parse_cases P image with ⟨e, hi⟩ | ⟨ri, hi⟩
    · constructor
      · intro _
        exact Or.inl ⟨e, hi⟩
      · intro _ w _
        exact imageRefMatch_fst_of_image_error P image w e hi
    · constructor
      · intro h
        right
        refine ⟨ri, hi, ?_⟩
        intro w hw rw hrw hc
        have hm := h w hw
        rw [imageRefMatch_of_ok P image w rw ri hrw hi] at hm
        simp [hc] at hm
      · rintro (⟨e, he⟩ | ⟨ri2, hi2, h⟩) w hw
        · rw [hi] at he
          exact absurd he (by simp)
        · rcases parse_cases P w with ⟨e2, hp⟩ | ⟨rw, hp⟩
          · rw [imageRefMatch_of_pattern_error P image w e2 hp]
          · rw [imageRefMatch_of_ok P image w rw ri2 hp hi2]
            simpa using h w hw rw hp

/-- Witness of C5: the allowlist `[gcr.io/allowed/repo]` under the model parser
and the images `gcr.io/allowed/repo`, `gcr.io/blocked/repo`. -/
theorem removeGloballyAllowedImages_of_parsed_witness :
    (∀ w ∈ [str "gcr.io/allowed/repo"], ∃ r, ParseReferenceModel w = .ok r) ∧
    RemoveGloballyAllowedImages ParseReferenceModel [str "gcr.io/allowed/repo"]
        [str "gcr.io/allowed/repo", str "gcr.io/blocked/repo"] =
      [str "gcr.io/blocked/repo"] :=
  ⟨fun w hw => by
      rw [List.mem_singleton.mp hw]
      exact ⟨⟨⟨str "gcr.io", str "allowed/repo"⟩, str "latest"⟩, by decide⟩,
    ((removeGloballyAllowedImages_of_parsed ParseReferenceModel [str "gcr.io/allowed/repo"]
        [str "gcr.io/allowed/repo", str "gcr.io/blocked/repo"] (fun w hw => by
          rw [List.mem_singleton.mp hw]
          exact ⟨⟨⟨str "gcr.io", str "allowed/repo"⟩, str "latest"⟩, by decide⟩)).1).trans
      (by decide)⟩

/-- C6: an input image whose global-allowlist check ends in an error is present
in the output of `RemoveGloballyAllowedImages`, as often as in the input; the
error is that of a failed parse, of the image or of an allowlist entry. -/
theorem removeGloballyAllowedImages_keeps_errors (P : Parser) (G images : List GoString)
    (image : GoString) (e : GoError) (hmem : image ∈ images)
    (herr : (imageInGlobalAllowlist P G image).2 = some e) :
    image ∈ RemoveGloballyAllowedImages P G images ∧
    (RemoveGloballyAllowedImages P G images).count image = images.count image ∧
    (P image = .error e ∨ ∃ w ∈ G, P w = .error e) := by
  have hf : (imageInGlobalAllowlist P G image).1 = false := by
    apply imageInAllowlistByReference_fst_of_error
    unfold imageInGlobalAllowlist at herr
    rw [herr]
    simp
  refine ⟨?_, ?_, imageInAllowlistByReference_error_cause P image e G herr⟩
  · rw [removeGloballyAllowedImages_eq_filter, List.mem_filter]
    exact ⟨hmem, by simp [hf]⟩
  · rw [removeGloballyAllowedImages_eq_filter, List.count_filter]
    simp [hf]

/-- Witness of C6: the image `gcr.io/Bad Repo` does not parse under the model
parser and stays in the output. -/
theorem removeGloballyAllowedImages_keeps_errors_witness :
    str "gcr.io/Bad Repo" ∈ [str "gcr.io/allowed/repo", str "gcr.io/Bad Repo"] ∧
    (imageInGlobalAllowlist ParseReferenceModel [str "gcr.io/allowed/repo"]
      (str "gcr.io/Bad Repo")).2 = some (errorsNew "could not parse reference") ∧
    str "gcr.io/Bad Repo" ∈ RemoveGloballyAllowedImages ParseReferenceModel
      [str "gcr.io/allowed/repo"] [str "gcr.io/allowed/repo", str "gcr.io/Bad Repo"] :=
  ⟨by decide, by decide,
    (removeGloballyAllowedImages_keeps_errors ParseReferenceModel [str "gcr.io/allowed/repo"]
      [str "gcr.io/allowed/repo", str "gcr.io/Bad Repo"] (str "gcr.io/Bad Repo")
      (errorsNew "could not parse reference") (by decide) (by decide)).1⟩

/-! ## The claims on the policy allowlist -/

/-- C7: for an allowlist without an empty pattern, `imageInGapAllowlist`
returns no error and returns true if and only if some pattern of the allowlist
matches the image under `imageNamePatternMatch`; the empty allowlist yields
false. -/
theorem imageInGapAllowlist_of_no_empty (image : GoString) (allowlist : List GoString)
    (h : ∀ w ∈ allowlist, w ≠ str "") :
    (imageInGapAllowlist image allowlist).2 = none ∧
    ((imageInGapAllowlist image allowlist).1 = true ↔
      ∃ w ∈ allowlist, (imageNamePatternMatch image w).1 = true) ∧
    imageInGapAllowlist image [] = (false, none) := by
  rw [str_empty] at h
  have h2 := imageInAllowlistByPattern_of_no_empty image allowlist h
  exact ⟨h2.1, h2.2, rfl⟩

/-- Witness of C7: the image `gcr.io/proj/repo:v1` and the allowlist
`[gcr.io/other/*, gcr.io/proj/*]`. -/
theorem imageInGapAllowlist_of_no_empty_witness :
    (∀ w ∈ [str "gcr.io/other/*", str "gcr.io/proj/*"], w ≠ str "") ∧
    imageInGapAllowlist (str "gcr.io/proj/repo:v1")
      [str "gcr.io/other/*", str "gcr.io/proj/*"] = (true, none) ∧
    (imageInGapAllowlist (str "gcr.io/proj/repo:v1")
      [str "gcr.io/other/*", str "gcr.io/proj/*"]).2 = none :=
  ⟨by decide, by decide,
    (imageInGapAllowlist_of_no_empty (str "gcr.io/proj/repo:v1")
      [str "gcr.io/other/*", str "gcr.io/proj/*"] (by decide)).1⟩

/-- C8: when an empty pattern occurs in the allowlist and no pattern before it
matches the image (in particular none before the first empty pattern),
`imageInGapAllowlist` returns the empty-pattern error of
`imageNamePatternMatch` with flag false, not a plain true or false. -/
theorem imageInGapAllowlist_of_empty (image : GoString) (pre post : List GoString)
    (hpre : ∀ w ∈ pre, (imageNamePatternMatch image w).1 = false) :
    imageInGapAllowlist image (pre ++ str "" :: post) =
      (false, (imageNamePatternMatch image (str "")).2) ∧
    (imageNamePatternMatch image (str "")).2 = some (errorsNew "empty pattern") := by
  rw [str_empty, imageNamePatternMatch_nil]
  exact ⟨imageInAllowlistByPattern_of_empty image post pre hpre, rfl⟩

/-- Witness of C8: the image `a` and the allowlist `[b, "", a]`. -/
theorem imageInGapAllowlist_of_empty_witness :
    (∀ w ∈ [str "b"], (imageNamePatternMatch (str "a") w).1 = false) ∧
    imageInGapAllowlist (str "a") ([str "b"] ++ str "" :: [str "a"]) =
      (false, (imageNamePatternMatch (str "a") (str "")).2) :=
  ⟨by decide,
    (imageInGapAllowlist_of_empty (str "a") [str "b"] [str "a"] (by decide)).1⟩

/-! ## The claims on `imageRefMatch` -/

/-- C9: when image and pattern both parse, `imageRefMatch` returns no error and
returns true if and only if the two references have equal context, that is
equal registry and equal repository; the tag or digest of either reference
has no influence: any other image and pattern that parse to the same two
contexts give the same result. -/
theorem imageRefMatch_of_parsed (P : Parser) (image pattern : GoString)
    (ri rp : Reference) (hi : P image = .ok ri) (hp : P pattern = .ok rp) :
    (imageRefMatch P image pattern).2 = none ∧
    ((imageRefMatch P image pattern).1 = true ↔ rp.Context = ri.Context) ∧
    ((imageRefMatch P image pattern).1 = true ↔
      (rp.Context.registry = ri.Context.registry ∧
        rp.Context.repository = ri.Context.repository)) ∧
    (∀ (image2 pattern2 : GoString) (ri2 rp2 : Reference),
      P image2 = .ok ri2 → P pattern2 = .ok rp2 →
      ri2.Context = ri.Context → rp2.Context = rp.Context →
      imageRefMatch P image2 pattern2 = imageRefMatch P image pattern) := by
  rw [imageRefMatch_of_ok P image pattern rp ri hp hi]
  refine ⟨rfl, by simp, ?_, ?_⟩
  · simp only [decide_eq_true_eq]
    constructor
    · intro h
      rw [h]
      exact ⟨rfl, rfl⟩
    · rintro ⟨h1, h2⟩
      rcases hrp : rp.Context with ⟨a, b⟩
      rcases hri : ri.Context with ⟨c, d⟩
      rw [hrp, hri] at h1 h2
      simp only at h1 h2
      rw [h1, h2]
  · intro image2 pattern2 ri2 rp2 hi2 hp2 hci hcp
    rw [imageRefMatch_of_ok P image2 pattern2 rp2 ri2 hp2 hi2, hci, hcp]

/-- Witness of C9: `gcr.io/proj/repo:v1` against `gcr.io/proj/repo:v2` under
the model parser. -/
theorem imageRefMatch_of_parsed_witness :
    ParseReferenceModel (str "gcr.io/proj/repo:v1") =
      .ok ⟨⟨str "gcr.io", str "proj/repo"⟩, str "v1"⟩ ∧
    ParseReferenceModel (str "gcr.io/proj/repo:v2") =
      .ok ⟨⟨str "gcr.io", str "proj/repo"⟩, str "v2"⟩ ∧
    imageRefMatch ParseReferenceModel (str "gcr.io/proj/repo:v1")
      (str "gcr.io/proj/repo:v2") = (true, none) ∧
    (imageRefMatch ParseReferenceModel (str "gcr.io/proj/repo:v1")
      (str "gcr.io/proj/repo:v2")).2 = none :=
  ⟨by decide, by decide, by decide,
    (imageRefMatch_of_parsed ParseReferenceModel (str "gcr.io/proj/repo:v1")
      (str "gcr.io/proj/repo:v2") ⟨⟨str "gcr.io", str "proj/repo"⟩, str "v1"⟩
      ⟨⟨str "gcr.io", str "proj/repo"⟩, str "v2"⟩ (by decide) (by decide)).1⟩

/-- C10: `imageRefMatch` returns an error if and only if the pattern or the
image fails to parse; the error returned is the parser's own, and the flag is
false whenever an error is returned. -/
theorem imageRefMatch_error_iff (P : Parser) (image pattern : GoString) :
    ((imageRefMatch P image pattern).2 ≠ none ↔
      ((∃ e, P pattern = .error e) ∨ (∃ e, P image = .error e))) ∧
    (∀ e, (imageRefMatch P image pattern).2 = some e →
      (P pattern = .error e ∨ P image = .error e)) ∧
    ((imageRefMatch P image pattern).2 ≠ none →
      (imageRefMatch P image pattern).1 = false) := by
  refine ⟨?_, imageRefMatch_error_cause P image pattern,
    imageRefMatch_fst_of_error P image pattern⟩
  rcases parse_cases P pattern with ⟨e2, hp⟩ | ⟨rp, hp⟩
  · rw [imageRefMatch_of_pattern_error P image pattern e2 hp]
    simp [hp]
  · rcases parse_cases P image with ⟨e1, hi⟩ | ⟨ri, hi⟩
    · rw [imageRefMatch_of_image_error P image pattern rp e1 hp hi]
      simp [hi]
    · rw [imageRefMatch_of_ok P image pattern rp ri hp hi]
      simp [hp, hi]

/-! ## Further lemmas on the loops -/

/-- An allowlist that holds an empty pattern and no matching pattern makes the
pattern loop end with the error. -/
theorem imageInAllowlistByPattern_of_mem_empty (image : GoString) (L : List GoString)
    (hmem : ([] : GoString) ∈ L)
    (hno : ∀ w ∈ L, (imageNamePatternMatch image w).1 = false) :
    imageInAllowlistByPattern image L = (false, some (errorsNew "empty pattern")) := by
  obtain ⟨pre, post, hL⟩ := List.append_of_mem hmem
  subst hL
  apply imageInAllowlistByPattern_of_empty
  intro w hw
  exact hno w (List.mem_append_left _ hw)

/-- An allowlist whose first entry does not parse makes the reference loop end
with that error for every image. -/
theorem imageInAllowlistByReference_of_head_error (P : Parser) (image w : GoString)
    (rest : List GoString) (e : GoError) (hw : P w = .error e) :
    imageInAllowlistByReference P image (w :: rest) = (false, some e) := by
  apply imageInAllowlistByReference_cons_error
  rw [imageRefMatch_of_pattern_error P image w e hw]

/-! ## The algebra of the global-allowlist filter -/

/-- C11: `RemoveGloballyAllowedImages` is idempotent for a fixed global
allowlist: applied to its own output it returns that output unchanged. -/
theorem removeGloballyAllowedImages_idempotent (P : Parser) (G images : List GoString) :
    RemoveGloballyAllowedImages P G (RemoveGloballyAllowedImages P G images) =
      RemoveGloballyAllowedImages P G images := by
  rw [removeGloballyAllowedImages_eq_filter P G images,
    removeGloballyAllowedImages_eq_filter, List.filter_filter]
  apply List.filter_congr
  intro x _
  simp

/-- C12: the output of `RemoveGloballyAllowedImages` is a sublist of the input:
the surviving images keep their relative order, every output image is an input
image, the output is not longer than the input, and the empty input yields the
empty output. -/
theorem removeGloballyAllowedImages_sublist (P : Parser) (G images : List GoString) :
    (RemoveGloballyAllowedImages P G images).Sublist images ∧
    (∀ x ∈ RemoveGloballyAllowedImages P G images, x ∈ images) ∧
    (RemoveGloballyAllowedImages P G images).length ≤ images.length ∧
    RemoveGloballyAllowedImages P G [] = [] := by
  have hsub : (RemoveGloballyAllowedImages P G images).Sublist images := by
    rw [removeGloballyAllowedImages_eq_filter]
    exact List.filter_sublist images
  exact ⟨hsub, fun x hx => hsub.subset hx, hsub.length_le, rfl⟩

/-- C15: each image is classified on its own:
`RemoveGloballyAllowedImages (xs ++ ys)` is
`RemoveGloballyAllowedImages xs ++ RemoveGloballyAllowedImages ys`. -/
theorem removeGloballyAllowedImages_append (P : Parser) (G xs ys : List GoString) :
    RemoveGloballyAllowedImages P G (xs ++ ys) =
      RemoveGloballyAllowedImages P G xs ++ RemoveGloballyAllowedImages P G ys := by
  rw [removeGloballyAllowedImages_eq_filter, removeGloballyAllowedImages_eq_filter,
    removeGloballyAllowedImages_eq_filter, List.filter_append]

/-- C16: when the first entry of the global allowlist fails to parse, the check
of every image ends on that entry with its error, and
`RemoveGloballyAllowedImages` returns the input list unchanged, whatever the
later entries are. -/
theorem removeGloballyAllowedImages_of_head_error (P : Parser) (w : GoString)
    (rest images : List GoString) (e : GoError) (hw : P w = .error e) :
    RemoveGloballyAllowedImages P (w :: rest) images = images ∧
    ∀ image : GoString, imageInGlobalAllowlist P (w :: rest) image = (false, some e) := by
  have hall : ∀ image : GoString,
      imageInGlobalAllowlist P (w :: rest) image = (false, some e) := fun image =>
    imageInAllowlistByReference_of_head_error P image w rest e hw
  refine ⟨?_, hall⟩
  rw [removeGloballyAllowedImages_eq_filter, List.filter_eq_self]
  intro image _
  rw [hall image]
  rfl

/-- Witness of C16: the empty string does not parse under the model parser, and
the later entry `gcr.io/allowed/repo` no longer allowlists the image of the
same name. -/
theorem removeGloballyAllowedImages_of_head_error_witness :
    ParseReferenceModel (str "") = .error (errorsNew "could not parse reference") ∧
    RemoveGloballyAllowedImages ParseReferenceModel [str "", str "gcr.io/allowed/repo"]
      [str "gcr.io/allowed/repo:v1", str "gcr.io/blocked/repo"] =
      [str "gcr.io/allowed/repo:v1", str "gcr.io/blocked/repo"] ∧
    RemoveGloballyAllowedImages ParseReferenceModel [str "gcr.io/allowed/repo"]
      [str "gcr.io/allowed/repo:v1", str "gcr.io/blocked/repo"] =
      [str "gcr.io/blocked/repo"] :=
  ⟨by decide,
    (removeGloballyAllowedImages_of_head_error ParseReferenceModel (str "")
      [str "gcr.io/allowed/repo"] [str "gcr.io/allowed/repo:v1", str "gcr.io/blocked/repo"]
      (errorsNew "could not parse reference") (by decide)).1,
    by decide⟩

/-- C14, as stated, fails: with the empty global allowlist the input `[x, x]`
is returned as it is, so the image `x` occurs twice in the output. -/
theorem removeGloballyAllowedImages_duplicate :
    RemoveGloballyAllowedImages ParseReferenceModel [] [str "x", str "x"] =
      [str "x", str "x"] ∧
    (RemoveGloballyAllowedImages ParseReferenceModel [] [str "x", str "x"]).count (str "x")
      = 2 ∧
    ¬ (RemoveGloballyAllowedImages ParseReferenceModel [] [str "x", str "x"]).Nodup := by
  refine ⟨by decide, by decide, by decide⟩

/-- C14, amended: no image string occurs more often in the output of
`RemoveGloballyAllowedImages` than in its input; so when no image string occurs
more than once in the input, none occurs more than once in the output. -/
theorem removeGloballyAllowedImages_count_le (P : Parser) (G images : List GoString) :
    (∀ x : GoString,
      (RemoveGloballyAllowedImages P G images).count x ≤ images.count x) ∧
    (images.Nodup → (RemoveGloballyAllowedImages P G images).Nodup) := by
  have hsub : (RemoveGloballyAllowedImages P G images).Sublist images := by
    rw [removeGloballyAllowedImages_eq_filter]
    exact List.filter_sublist images
  exact ⟨fun x => hsub.count_le x, fun h => h.sublist hsub⟩

/-! ## The order of the patterns -/

/-- C13, as stated, fails: the allowlists `[a, ""]` and `["", a]` are
permutations of each other, yet for the image `a` the first gives a match
without error and the second the empty-pattern error with flag false. -/
theorem imageInAllowlistByPattern_order_matters :
    List.Perm [str "a", str ""] [str "", str "a"] ∧
    imageInAllowlistByPattern (str "a") [str "a", str ""] = (true, none) ∧
    imageInAllowlistByPattern (str "a") [str "", str "a"] =
      (false, some (errorsNew "empty pattern")) ∧
    (imageInAllowlistByPattern (str "a") [str "a", str ""]).1 ≠
      (imageInAllowlistByPattern (str "a") [str "", str "a"]).1 := by
  refine ⟨List.Perm.swap _ _ _, by decide, by decide, by decide⟩

/-- C13, amended: for two allowlists that are permutations of each other,
`imageInAllowlistByPattern` returns the same flag and the same error on both
whenever the allowlist holds no empty pattern or no pattern of it matches the
image. -/
theorem imageInAllowlistByPattern_perm (image : GoString) (L1 L2 : List GoString)
    (hperm : L1.Perm L2)
    (h : (∀ w ∈ L1, w ≠ str "") ∨ (∀ w ∈ L1, (imageNamePatternMatch image w).1 = false)) :
    imageInAllowlistByPattern image L1 = imageInAllowlistByPattern image L2 := by
  rw [str_empty] at h
  by_cases hne : ∀ w ∈ L1, w ≠ []
  · have h1 := imageInAllowlistByPattern_of_no_empty image L1 hne
    have h2 := imageInAllowlistByPattern_of_no_empty image L2
      (fun w hw => hne w (hperm.mem_iff.mpr hw))
    apply Prod.ext
    · rw [Bool.eq_iff_iff, h1.2, h2.2]
      constructor
      · rintro ⟨w, hw, hm⟩
        exact ⟨w, hperm.mem_iff.mp hw, hm⟩
      · rintro ⟨w, hw, hm⟩
        exact ⟨w, hperm.mem_iff.mpr hw, hm⟩
    · rw [h1.1, h2.1]
  · rcases h with h | h
    · exact absurd h hne
    · have hmem : ([] : GoString) ∈ L1 := by
        by_contra hc
        apply hne
        intro w hw hnil
        rw [hnil] at hw
        exact hc hw
      rw [imageInAllowlistByPattern_of_mem_empty image L1 hmem h,
        imageInAllowlistByPattern_of_mem_empty image L2 (hperm.mem_iff.mp hmem)
          (fun w hw => h w (hperm.mem_iff.mpr hw))]

/-- Witness of C13, amended: the image `a` against `[b*, a]` and `[a, b*]`. -/
theorem imageInAllowlistByPattern_perm_witness :
    List.Perm [str "b*", str "a"] [str "a", str "b*"] ∧
    (∀ w ∈ [str "b*", str "a"], w ≠ str "") ∧
    imageInAllowlistByPattern (str "a") [str "b*", str "a"] =
      imageInAllowlistByPattern (str "a") [str "a", str "b*"] ∧
    imageInAllowlistByPattern (str "a") [str "b*", str "a"] = (true, none) :=
  ⟨List.Perm.swap _ _ _, by decide,
    imageInAllowlistByPattern_perm (str "a") [str "b*", str "a"] [str "a", str "b*"]
      (List.Perm.swap _ _ _) (Or.inl (by decide)),
    by decide⟩

/-- C17: there are an image and an allowlist holding an empty pattern for which
`imageInAllowlistByPattern` returns true with no error: for the image `a` and
the allowlist `[a, ""]` the loop returns on the match and never reaches the
empty pattern. -/
theorem imageInAllowlistByPattern_match_before_empty :
    imageInAllowlistByPattern (str "a") [str "a", str ""] = (true, none) ∧
    ∃ (image : GoString) (allowlist : List GoString),
      str "" ∈ allowlist ∧ imageInAllowlistByPattern image allowlist = (true, none) := by
  refine ⟨by decide, str "a", [str "a", str ""], by decide, by decide⟩

/-! ## Symmetry of `imageRefMatch` -/

/-- C18: `imageRefMatch` is symmetric up to the identity of the error:
`imageRefMatch a b` fails if and only if `imageRefMatch b a` fails, when
neither fails both return the same flag (the flags agree in every case), and
`imageRefMatch a a` returns true for every `a` that parses. -/
theorem imageRefMatch_symm (P : Parser) (a b : GoString) :
    ((imageRefMatch P a b).2 ≠ none ↔ (imageRefMatch P b a).2 ≠ none) ∧
    ((imageRefMatch P a b).2 = none → (imageRefMatch P b a).2 = none →
      (imageRefMatch P a b).1 = (imageRefMatch P b a).1) ∧
    (imageRefMatch P a b).1 = (imageRefMatch P b a).1 ∧
    ((∃ r, P a = .ok r) → imageRefMatch P a a = (true, none)) := by
  have hself : (∃ r, P a = .ok r) → imageRefMatch P a a = (true, none) := by
    rintro ⟨r, hr⟩
    rw [imageRefMatch_of_ok P a a r r hr hr]
    simp
  rcases parse_cases P a with ⟨ea, ha⟩ | ⟨ra, ha⟩
  · rcases parse_cases P b with ⟨eb, hb⟩ | ⟨rb, hb⟩
    · rw [imageRefMatch_of_pattern_error P a b eb hb,
        imageRefMatch_of_pattern_error P b a ea ha]
      exact ⟨by simp, fun _ _ => rfl, rfl, hself⟩
    · rw [imageRefMatch_of_image_error P a b rb ea hb ha,
        imageRefMatch_of_pattern_error P b a ea ha]
      exact ⟨by simp, fun _ _ => rfl, rfl, hself⟩
  · rcases parse_cases P b with ⟨eb, hb⟩ | ⟨rb, hb⟩
    · rw [imageRefMatch_of_pattern_error P a b eb hb,
        imageRefMatch_of_image_error P b a ra eb ha hb]
      exact ⟨by simp, fun _ _ => rfl, rfl, hself⟩
    · rw [imageRefMatch_of_ok P a b rb ra hb ha, imageRefMatch_of_ok P b a ra rb ha hb]
      have hflag : decide (rb.Context = ra.Context) = decide (ra.Context = rb.Context) := by
        by_cases hc : rb.Context = ra.Context
        · simp [hc]
        · have hc2 : ¬ ra.Context = rb.Context := fun h2 => hc h2.symm
          simp [hc, hc2]
      exact ⟨by simp, fun _ _ => hflag, hflag, hself⟩

end Allowlist
